import Mathlib

/-!
Verification development for the asset resolution, deduplication and
consolidation pipeline of the `ui-cloner-cli` repository
(`src/lib/website-cloner.js`).  The source file contains two variants of the
`WebsiteCloner` class; line references below cite the first variant unless
noted otherwise.  JavaScript strings are modelled as Lean `String`, the
cheerio document tree as an explicit head/body node list, and the network as
an explicit oracle.  `new URL`, `path.basename`, `path.extname` and the other
Node/JS built-ins the source calls are modelled by executable functions that
follow the built-in behaviour on the inputs exercised here (no percent
encoding, dot-segment normalisation or Unicode case mapping).
-/

namespace Cloner

/-- Model of `Array.prototype.includes`-style membership of a pattern inside a
character list; `hasSubstr hay pat` is true iff `pat` occurs contiguously in
`hay` (matching JS `String.prototype.includes`). -/
def hasSubstr (hay pat : List Char) : Bool :=
  pat.isPrefixOf hay ||
    match hay with
    | [] => false
    | _ :: t => hasSubstr t pat

/-- Model of JS `hay.includes(pat)`. -/
def jsIncludes (hay pat : String) : Bool :=
  hasSubstr hay.toList pat.toList

/-- Model of JS `s.startsWith(pre)`. -/
def jsStartsWith (s pre : String) : Bool :=
  pre.toList.isPrefixOf s.toList

/-- Characters treated as trimmable whitespace, modelling the common cases of
JS `String.prototype.trim`. -/
def wsChar (c : Char) : Bool :=
  c == ' ' || c == '\t' || c == '\n' || c == '\r'

/-- Model of JS `s.trim()`. -/
def jsTrim (s : String) : String :=
  String.mk (((s.toList.dropWhile wsChar).reverse.dropWhile wsChar).reverse)

/-- Model of JS `s.split(sep)` for a single-character separator. -/
def splitChar (sep : Char) : List Char → List (List Char)
  | [] => [[]]
  | c :: t =>
    let r := splitChar sep t
    if c == sep then [] :: r
    else
      match r with
      | [] => [[c]]
      | h :: t2 => (c :: h) :: t2

/-- First-occurrence replacement on character lists; if `pat` does not occur,
the list is unchanged.  An empty `pat` matches at the start, as in JS. -/
def replaceFirstL (l pat repl : List Char) : List Char :=
  if pat.isPrefixOf l then repl ++ l.drop pat.length
  else
    match l with
    | [] => []
    | c :: t => c :: replaceFirstL t pat repl

/-- Model of JS `s.replace(pat, repl)` with a string pattern, which replaces
only the first occurrence. -/
def replaceFirst (s pat repl : String) : String :=
  String.mk (replaceFirstL s.toList pat.toList repl.toList)

/-- ASCII alphabetic test (`a`-`z`, `A`-`Z`). -/
def isAsciiAlpha (c : Char) : Bool :=
  (('a' ≤ c) && (c ≤ 'z')) || (('A' ≤ c) && (c ≤ 'Z'))

/-- ASCII lower-casing of one character, modelling `String.prototype.toLowerCase`
on the ASCII extensions compared against `validImageExts`. -/
def asciiLower (c : Char) : Char :=
  if ('A' ≤ c) && (c ≤ 'Z') then Char.ofNat (c.toNat + 32) else c

/-- Model of JS `s.toLowerCase()` restricted to ASCII. -/
def toLowerStr (s : String) : String :=
  String.mk (s.toList.map asciiLower)

/-- Characters allowed in a URL scheme after the leading letter. -/
def isSchemeChar (c : Char) : Bool :=
  isAsciiAlpha c || c.isDigit || c == '+' || c == '-' || c == '.'

/-- Split a string of the form `scheme:rest` into its scheme and remainder;
returns `none` when the string does not begin with a scheme followed by a
colon (so relative references, `//`, `/`, `#`, `?` forms all yield `none`). -/
def schemeSplit (s : String) : Option (String × String) :=
  match s.toList with
  | [] => none
  | c :: cs =>
    if isAsciiAlpha c then
      match (c :: cs).dropWhile isSchemeChar with
      | ':' :: r => some (String.mk ((c :: cs).takeWhile isSchemeChar), String.mk r)
      | _ => none
    else none

/-- Parsed absolute URL: either an authority-based URL (`scheme://host...`) or
a URL with a non-authority path such as `data:` or `javascript:`. -/
inductive UrlRec where
  | auth (scheme host path query fragment : String)
  | noAuth (scheme rest : String)
deriving DecidableEq, Repr

/-- Split `path?query#fragment` text into its three parts (query keeps its
leading `?`, fragment its leading `#`). -/
def splitPQF (s : String) : String × String × String :=
  let l := s.toList
  let beforeHash := l.takeWhile (fun c => c != '#')
  let hash := l.dropWhile (fun c => c != '#')
  (String.mk (beforeHash.takeWhile (fun c => c != '?')),
   String.mk (beforeHash.dropWhile (fun c => c != '?')),
   String.mk hash)

/-- Model of WHATWG absolute-URL parsing (`new URL(s)`), in the fragment
exercised by the source: a scheme followed by `//` parses as an authority URL
with an empty path normalised to `/`; any other scheme-prefixed string keeps
its remainder as a non-authority path; scheme-less strings fail. -/
def parseAbsUrl (s : String) : Option UrlRec :=
  match schemeSplit s with
  | none => none
  | some (sch, rest) =>
    if jsStartsWith rest "//" then
      let r := (rest.toList.drop 2)
      let host := String.mk (r.takeWhile (fun c => c != '/' && c != '?' && c != '#'))
      let tail := String.mk (r.dropWhile (fun c => c != '/' && c != '?' && c != '#'))
      let (p, q, f) := splitPQF tail
      some (.auth sch host (if p = "" then "/" else p) q f)
    else some (.noAuth sch rest)

/-- Serialised form of a parsed URL (`URL.prototype.href`). -/
def UrlRec.href : UrlRec → String
  | .auth sch host p q f => sch ++ "://" ++ host ++ p ++ q ++ f
  | .noAuth sch rest => sch ++ ":" ++ rest

/-- Model of `URL.prototype.pathname`; for non-authority URLs this is the
opaque path up to any query or fragment. -/
def UrlRec.pathname : UrlRec → String
  | .auth _ _ p _ _ => p
  | .noAuth _ rest => String.mk (rest.toList.takeWhile (fun c => c != '?' && c != '#'))

/-- Directory prefix of a path: everything up to and including the last
slash (used when resolving relative references). -/
def dirOf (p : String) : String :=
  String.mk ((p.toList.reverse.dropWhile (fun c => c != '/')).reverse)

/-- Model of `resolveUrl` (website-cloner.js lines 349-355): the source wraps
`new URL(url, baseUrl).href` in a try/catch and returns `null` on failure, so
the model returns an `Option`.  Following the URL Standard, the constructor
parses the base first when one is supplied and fails on an unparseable base
even when the input is absolute; with a parsed base, absolute inputs resolve
to themselves and relative forms are composed against an authority base
(relative resolution against a non-authority base fails). -/
def resolveUrl (url baseUrl : String) : Option String :=
  match parseAbsUrl baseUrl with
  | none => none
  | some b =>
    match parseAbsUrl url with
    | some u => some u.href
    | none =>
      match b with
      | .noAuth _ _ => none
      | .auth sch host p q _ =>
        if jsStartsWith url "//" then (parseAbsUrl (sch ++ ":" ++ url)).map UrlRec.href
        else if jsStartsWith url "#" then some (sch ++ "://" ++ host ++ p ++ q ++ url)
        else if jsStartsWith url "/" then
          let (p2, q2, f2) := splitPQF url
          some (sch ++ "://" ++ host ++ p2 ++ q2 ++ f2)
        else if jsStartsWith url "?" then some (sch ++ "://" ++ host ++ p ++ url)
        else if url = "" then some (sch ++ "://" ++ host ++ p ++ q)
        else
          let (p2, q2, f2) := splitPQF url
          some (sch ++ "://" ++ host ++ dirOf p ++ p2 ++ q2 ++ f2)

/-- Deny-list used by `isTrackingScript` (website-cloner.js lines 395-408). -/
def trackingPatterns : List String :=
  ["google-analytics", "gtag", "googletagmanager", "facebook.net",
   "twitter.com", "linkedin.com", "hotjar", "mixpanel", "segment.com"]

/-- Model of `isTrackingScript(src)`: substring match of any deny-list pattern
against the given string (the source applies it to the raw `src` attribute). -/
def isTrackingScript (src : String) : Bool :=
  trackingPatterns.any (fun p => jsIncludes src p)

/-- Deny-list used by `isTrackingScriptContent` (lines 503-520). -/
def trackingContentPatterns : List String :=
  ["gtag", "ga(", "GoogleAnalytics", "google-analytics", "fbq(", "facebook",
   "_gaq", "gtm", "dataLayer", "mixpanel", "hotjar", "segment", "_hj"]

/-- Model of `isTrackingScriptContent(content)`: substring match of any
inline-content pattern against the script body. -/
def isTrackingScriptContent (content : String) : Bool :=
  trackingContentPatterns.any (fun p => jsIncludes content p)

/-- Model of Node `path.basename` on a POSIX path: trailing slashes are
ignored and the component after the last remaining slash is returned. -/
def pathBasename (p : String) : String :=
  let l := (p.toList.reverse.dropWhile (fun c => c == '/')).reverse
  String.mk ((l.reverse.takeWhile (fun c => c != '/')).reverse)

/-- Model of Node `path.extname` on a bare filename: the suffix from the last
dot, empty when there is no dot or the only dot is the leading character. -/
def extnameStr (f : String) : String :=
  let l := f.toList
  let afterDot := l.reverse.takeWhile (fun c => c != '.')
  if afterDot.length = l.length then ""
  else if l.length - afterDot.length - 1 = 0 then ""
  else String.mk ('.' :: afterDot.reverse)

/-- One character of the sanitising replacement `[^a-zA-Z0-9.-] -> _`
(website-cloner.js line 369). -/
def sanitizeChar (c : Char) : Char :=
  if isAsciiAlpha c || c.isDigit || c == '.' || c == '-' then c else '_'

/-- Model of `fileName.replace(/[^a-zA-Z0-9.-]/g, "_")`. -/
def sanitizeFileName (s : String) : String :=
  String.mk (s.toList.map sanitizeChar)

/-- Image extensions accepted by `getFileName` (line 379). -/
def validImageExts : List String :=
  [".jpg", ".jpeg", ".png", ".gif", ".svg", ".webp", ".ico"]

/-- Model of `fileName.replace(/\.[^.]*$/, ".png")`: the final dot-suffix is
replaced by `.png`; a dot-free name is unchanged. -/
def replaceLastExt (f : String) : String :=
  let l := f.toList
  let afterDot := l.reverse.takeWhile (fun c => c != '.')
  if afterDot.length = l.length then f
  else String.mk (l.take (l.length - afterDot.length - 1)) ++ ".png"

/-- Filename derivation of `getFileName` for a URL that parsed, working from
its pathname (lines 360-385): basename, type defaults for empty names,
character sanitising, extension defaulting, and the image-extension fixup. -/
def getFileNameResolved (ty pn : String) : String :=
  let fn0 := pathBasename pn
  let fn1 := if fn0 = "" || fn0 = "/" then
      (if ty = "css" then "style" else if ty = "js" then "script" else "image")
    else fn0
  let fn2 := sanitizeFileName fn1
  let fn3 := if extnameStr fn2 = "" then
      fn2 ++ (if ty = "css" then ".css" else if ty = "js" then ".js" else ".png")
    else fn2
  if ty = "images" && !(validImageExts.contains (toLowerStr (extnameStr fn3))) then
    replaceLastExt fn3
  else fn3

/-- Model of `getFileName(url, type)` of the first variant (lines 357-393).
`new URL(url)` throwing is the `none` branch of `parseAbsUrl`; the fallback
uses `Date.now()`, passed here explicitly as `ts`. -/
def getFileName (url ty : String) (ts : Nat) : String :=
  match parseAbsUrl url with
  | none =>
    if ty = "css" then "style.css"
    else if ty = "js" then "script.js"
    else "image_" ++ toString ts ++ ".png"
  | some u => getFileNameResolved ty u.pathname

/-- The single-quote character, written by code point. -/
def squote : Char := Char.ofNat 39

/-- Strip one optional leading and one optional trailing quote from a
`url(...)` argument, as the optional `["']` groups of the source regex do. -/
def stripQuotesArg (l : List Char) : List Char :=
  let l1 := match l with
    | c :: r => if c == '"' || c == squote then r else l
    | [] => []
  match l1.reverse with
  | c :: r => if c == '"' || c == squote then r.reverse else l1
  | [] => []

/-- Fuel-driven scanner behind `extractCssUrls`; the fuel only ensures
structural recursion (so that the definition computes by kernel reduction)
and never runs out when initialised to the list length, since every step
consumes at least one character. -/
def extractCssUrlsAux : Nat → List Char → List String
  | 0, _ => []
  | _, [] => []
  | fuel + 1, 'u' :: 'r' :: 'l' :: '(' :: rest =>
    String.mk (stripQuotesArg (rest.takeWhile (fun c => c != ')'))) ::
      extractCssUrlsAux fuel (rest.dropWhile (fun c => c != ')'))
  | fuel + 1, _ :: rest => extractCssUrlsAux fuel rest

/-- Model of the global regex scan `/url\(["']?(.*?)["']?\)/g` over style text
(website-cloner.js lines 250-254): each `url(` opens an argument running to
the next `)`, with optional surrounding quotes stripped. -/
def extractCssUrls (l : List Char) : List String :=
  extractCssUrlsAux l.length l

/-- Cheerio-level document node, restricted to the element kinds the pipeline
inspects; `other` stands for any element it ignores. -/
inductive Node where
  | styleTag (content : String)
  | link (rel : String) (href : Option String)
  | script (src : Option String) (content : String)
  | img (src : Option String) (srcset : Option String)
  | noscript (content : String)
  | iframe (src : Option String)
  | anchor (href : Option String) (target : Option String)
  | meta (nm : String) (content : String)
  | other (tag : String)
deriving DecidableEq, Repr

/-- A parsed document: the children of `head` and of `body`, in document
order (cheerio selections traverse head before body). -/
structure Doc where
  head : List Node
  body : List Node
deriving DecidableEq, Repr

/-- All nodes of a document in traversal order. -/
def allNodes (d : Doc) : List Node := d.head ++ d.body

/-- Pass of `downloadAssets` lines 143-146: every inline `<style>` block is
appended (with a newline) to the combined CSS and removed from the tree. -/
def extractStyles : List Node → List Node × String
  | [] => ([], "")
  | .styleTag c :: rest =>
    let (ns, s) := extractStyles rest
    (ns, c ++ "\n" ++ s)
  | n :: rest =>
    let (ns, s) := extractStyles rest
    (n :: ns, s)

/-- Pass of lines 149-163: every `link[rel=stylesheet]` with a resolvable
href is fetched (`ftext` is the `axios.get` oracle; `none` models a thrown
request error); on success its text joins the combined CSS and the node is
removed, on failure the node is kept.  Returns the surviving nodes, the CSS
text gathered, and the URLs for which a fetch was issued. -/
def cssLinkPass (base : String) (ftext : String → Option String) :
    List Node → List Node × String × List String
  | [] => ([], "", [])
  | n :: rest =>
    let (ns, s, fs) := cssLinkPass base ftext rest
    match n with
    | .link rel (some h) =>
      if rel = "stylesheet" then
        match resolveUrl h base with
        | some abs =>
          match ftext abs with
          | some dat => (ns, dat ++ "\n" ++ s, abs :: fs)
          | none => (n :: ns, s, abs :: fs)
        | none => (n :: ns, s, fs)
      else (n :: ns, s, fs)
    | _ => (n :: ns, s, fs)

/-- Pass of lines 176-181: inline scripts (no `src`) whose body is not
classified as tracking content are merged into the combined JS and removed;
tracking ones are left in place at this stage.  Also returns the list of
merged bodies. -/
def inlineJsPass : List Node → List Node × String × List String
  | [] => ([], "", [])
  | n :: rest =>
    let (ns, s, ms) := inlineJsPass rest
    match n with
    | .script none c =>
      if isTrackingScriptContent c then (n :: ns, s, ms)
      else (ns, c ++ "\n" ++ s, c :: ms)
    | _ => (n :: ns, s, ms)

/-- Pass of lines 184-201: a `script[src]` whose raw src is empty or matches
the deny-list is removed without any fetch; otherwise a resolvable src is
fetched, merged and removed on success, and kept on a failed fetch. -/
def extJsPass (base : String) (ftext : String → Option String) :
    List Node → List Node × String × List String
  | [] => ([], "", [])
  | n :: rest =>
    let (ns, s, fs) := extJsPass base ftext rest
    match n with
    | .script (some src) _ =>
      if src = "" || isTrackingScript src then (ns, s, fs)
      else
        match resolveUrl src base with
        | some abs =>
          match ftext abs with
          | some dat => (ns, dat ++ "\n" ++ s, abs :: fs)
          | none => (n :: ns, s, abs :: fs)
        | none => (n :: ns, s, fs)
    | _ => (n :: ns, s, fs)

/-- Pass of lines 212-225: every `img` whose raw `src` resolves gets a
`downloadAsset` call pushed for the resolved URL and is rewritten, at scan
time and regardless of any later fetch outcome, to the derived local
filename.  Returns the rewritten nodes and the pushed `(url, localPath)`
calls in order. -/
def imgPass (base : String) (ts : Nat) : List Node → List Node × List (String × String)
  | [] => ([], [])
  | n :: rest =>
    let (ns, cs) := imgPass base ts rest
    match n with
    | .img (some src) ss =>
      match resolveUrl src base with
      | some abs =>
        let fn := getFileName src "images" ts
        (.img (some fn) ss :: ns, (abs, fn) :: cs)
      | none => (n :: ns, cs)
    | _ => (n :: ns, cs)

/-- Candidate URLs of a `srcset` value: `srcset.split(",").map(s =>
s.trim().split(" ")[0])` (line 231). -/
def srcsetUrls (ss : String) : List String :=
  (splitChar ',' ss.toList).map
    (fun part => String.mk ((splitChar ' ' (jsTrim (String.mk part)).toList).headD []))

/-- Pass of lines 228-246 for one `srcset` value: each resolvable candidate
pushes a download call, and the attribute is overwritten with
`srcset.replace(url, localPath)` computed from the ORIGINAL value each time
(so only the last resolvable candidate's replacement survives, as in the
source). -/
def srcsetProcess (base : String) (ts : Nat) (ss : String) : String × List (String × String) :=
  (srcsetUrls ss).foldl
    (fun acc u =>
      match resolveUrl u base with
      | some abs =>
        let fn := getFileName u "images" ts
        (replaceFirst ss u fn, acc.2 ++ [(abs, fn)])
      | none => acc)
    (ss, [])

/-- Tree part of the srcset pass: applies `srcsetProcess` to every image
carrying a `srcset` attribute. -/
def srcsetPass (base : String) (ts : Nat) : List Node → List Node × List (String × String)
  | [] => ([], [])
  | n :: rest =>
    let (ns, cs) := srcsetPass base ts rest
    match n with
    | .img src (some ss) =>
      let (s2, cs0) := srcsetProcess base ts ss
      (.img src (some s2) :: ns, cs0 ++ cs)
    | _ => (n :: ns, cs)

/-- Pass of lines 249-272: every `url(...)` occurrence in the combined CSS
that does not start with `data:` and resolves against the base pushes a
download call.  One step processes one extracted raw URL. -/
def cssBgStep (base : String) (ts : Nat) (u : String) (acc : List (String × String × String)) :
    List (String × String × String) :=
  if jsStartsWith u "data:" then acc
  else
    match resolveUrl u base with
    | some abs => (u, abs, getFileName u "images" ts) :: acc
    | none => acc

/-- Download calls pushed by the CSS background-image pass, as
`(raw, resolvedUrl, fileName)` triples in extraction order. -/
def cssBgCalls (base : String) (ts : Nat) (css : String) : List (String × String × String) :=
  (extractCssUrls css.toList).foldr (cssBgStep base ts) []

/-- CSS text after the background-image rewriting of lines 252-277: each
processed raw URL is replaced (first occurrence) by its local filename. -/
def cssBgRewrite (base : String) (ts : Nat) (css : String) : String :=
  (cssBgCalls base ts css).foldl (fun cur t => replaceFirst cur t.1 t.2.2) css

/-- The `rel` values selected by the favicon pass (line 281). -/
def iconRels : List String := ["icon", "shortcut icon", "apple-touch-icon"]

/-- Pass of lines 280-295: icon links behave like images — rewritten at scan
time to the derived filename whenever the href resolves. -/
def iconPass (base : String) (ts : Nat) : List Node → List Node × List (String × String)
  | [] => ([], [])
  | n :: rest =>
    let (ns, cs) := iconPass base ts rest
    match n with
    | .link rel (some h) =>
      if iconRels.contains rel then
        match resolveUrl h base with
        | some abs =>
          let fn := getFileName h "images" ts
          (.link rel (some fn) :: ns, (abs, fn) :: cs)
        | none => (n :: ns, cs)
      else (n :: ns, cs)
    | _ => (n :: ns, cs)

/-- Result of the scan-and-rewrite part of `downloadAssets` (first variant,
lines 126-315), before the pushed downloads are executed. -/
structure AssetsScan where
  doc : Doc
  combinedCSS : String
  finalCSS : String
  combinedJS : String
  mergedInlineJS : List String
  cssFetched : List String
  jsFetched : List String
  imgCalls : List (String × String)
deriving Repr

/-- Model of `downloadAssets(html, baseUrl, outputDir)` of the first variant:
style extraction and linked-CSS consolidation, inline and linked script
consolidation, then the image, srcset, CSS-background and icon passes, each
pushing deferred `downloadAsset` calls.  `ftext` is the synchronous
`axios.get` oracle used for style/script text. -/
def downloadAssets (base : String) (ftext : String → Option String) (ts : Nat) (d : Doc) :
    AssetsScan :=
  let (h1, cssH) := extractStyles d.head
  let (b1, cssB) := extractStyles d.body
  let (h2, cssH2, cfH) := cssLinkPass base ftext h1
  let (b2, cssB2, cfB) := cssLinkPass base ftext b1
  let css1 := cssH ++ cssB ++ cssH2 ++ cssB2
  let h3 := if jsTrim css1 ≠ "" then h2 ++ [.link "stylesheet" (some "style.css")] else h2
  let (h4, jsH, mH) := inlineJsPass h3
  let (b4, jsB, mB) := inlineJsPass b2
  let (h5, jsH2, jfH) := extJsPass base ftext h4
  let (b5, jsB2, jfB) := extJsPass base ftext b4
  let js1 := jsH ++ jsB ++ jsH2 ++ jsB2
  let b6 := if jsTrim js1 ≠ "" then b5 ++ [.script (some "script.js") ""] else b5
  let (h7, icH) := imgPass base ts h5
  let (b7, icB) := imgPass base ts b6
  let (h8, scH) := srcsetPass base ts h7
  let (b8, scB) := srcsetPass base ts b7
  let bg := cssBgCalls base ts css1
  let (h9, fvH) := iconPass base ts h8
  let (b9, fvB) := iconPass base ts b8
  { doc := ⟨h9, b9⟩
    combinedCSS := css1
    finalCSS := cssBgRewrite base ts css1
    combinedJS := js1
    mergedInlineJS := mH ++ mB
    cssFetched := cfH ++ cfB
    jsFetched := jfH ++ jfB
    imgCalls := (icH ++ icB) ++ (scH ++ scB) ++ bg.map (fun t => (t.2.1, t.2.2)) ++ (fvH ++ fvB) }

/-- Outcome of the network and file-system for one URL: whether the HTTP
request succeeds and, if so, whether the write stream finishes. -/
structure FetchOutcome where
  fetchOk : Bool
  writeOk : Bool
deriving DecidableEq, Repr

/-- Observable result of one `downloadAsset` invocation. -/
inductive DAStatus where
  | skipped
  | success
  | fetchFailed
  | writeFailed
deriving DecidableEq, Repr

/-- Model of one `downloadAsset(url, localPath)` call (lines 317-347; the
second variant's lines 832-862 are identical): a URL already recorded in
`downloadedAssets` returns immediately; otherwise the fetch is issued, on
success the file is written and only then is the URL recorded; a thrown fetch
error is caught inside the function. -/
def downloadAssetStatus (inSet : Bool) (oc : FetchOutcome) : DAStatus :=
  if inSet then .skipped
  else if !oc.fetchOk then .fetchFailed
  else if oc.writeOk then .success
  else .writeFailed

/-- Whether the invocation reached the network (`axios` was called). -/
def DAStatus.issuesFetch : DAStatus → Bool
  | .skipped => false
  | _ => true

/-- Whether the invocation finished writing the local file. -/
def DAStatus.writesFile : DAStatus → Bool
  | .success => true
  | _ => false

/-- Whether the promise returned by `downloadAsset` is fulfilled: the catch
block swallows fetch failures (the function then resolves with `undefined`),
so only a write-stream error leaves a rejected promise for
`Promise.allSettled` to observe. -/
def DAStatus.fulfilled : DAStatus → Bool
  | .writeFailed => false
  | _ => true

/-- One `downloadAsset` call run to completion in isolation, threading the
`downloadedAssets` set: the URL is added exactly when the download succeeds. -/
def downloadAssetRun (s : List String) (oc : FetchOutcome) (url : String) :
    List String × DAStatus :=
  let st := downloadAssetStatus (s.contains url) oc
  (if st = .success then url :: s else s, st)

/-- Execution of the calls created in one synchronous scan section.  The
membership check `downloadedAssets.has(url)` is the synchronous prefix of
`downloadAsset`, evaluated when the call is pushed, while
`downloadedAssets.add(url)` runs in the stream-finish callback after the
network round trip; hence every call of the section sees the set as it stood
when the section began. -/
def execPass (s0 : List String) (oc : String → FetchOutcome) (calls : List (String × String)) :
    List (String × String × DAStatus) :=
  calls.map (fun c => (c.1, c.2, downloadAssetStatus (s0.contains c.1) (oc c.1)))

/-- Number of network fetches issued for a given URL by one scan section. -/
def fetchCountFor (s0 : List String) (oc : String → FetchOutcome)
    (calls : List (String × String)) (u : String) : Nat :=
  (execPass s0 oc calls).countP (fun t => t.1 == u && t.2.2.issuesFetch)

/-- The `successful` count of lines 298-299: `Promise.allSettled` results
with status `fulfilled`. -/
def fulfilledCount (s0 : List String) (oc : String → FetchOutcome)
    (calls : List (String × String)) : Nat :=
  (execPass s0 oc calls).countP (fun t => t.2.2.fulfilled)

/-- Number of asset files actually fetched and written by one scan section. -/
def writtenCount (s0 : List String) (oc : String → FetchOutcome)
    (calls : List (String × String)) : Nat :=
  (execPass s0 oc calls).countP (fun t => t.2.2.writesFile)

/-- The `downloadedAssets` set after a section settles: URLs of successful
downloads are added, nothing is ever removed. -/
def afterPass (s0 : List String) (oc : String → FetchOutcome)
    (calls : List (String × String)) : List String :=
  (execPass s0 oc calls).foldl
    (fun s t => if t.2.2 = DAStatus.success then t.1 :: s else s) s0

/-- Page metadata handed over by the page-capture collaborator
(`extractPageInfo`). -/
structure PageInfo where
  title : String
  description : String
  favicon : String
  viewport : String
  primaryColor : String
  baseUrl : String
deriving DecidableEq, Repr

/-- Inner CSS text of the `enhancementStyles` block appended by
`generateHTMLOutput` (lines 462-487). -/
def enhancementStyles : String :=
  "\n        /* UI Clone Enhancement Styles - Minimal and Non-Conflicting */\n        html \x7b \n          scroll-behavior: smooth; \n        \x7d\n        \n        /* Ensure images are responsive without breaking existing styles */\n        img:not([style*=\"width\"]):not([style*=\"max-width\"]) \x7b \n          max-width: 100%; \n          height: auto; \n        \x7d\n        \n        /* Accessibility improvements */\n        a:focus, button:focus, input:focus, select:focus, textarea:focus \x7b\n          outline: 2px solid #007acc;\n          outline-offset: 2px;\n        \x7d\n        \n        /* Performance optimization for transitions */\n        * \x7b\n          -webkit-font-smoothing: antialiased;\n          -moz-osx-font-smoothing: grayscale;\n        \x7d\n      "

/-- Removal condition of the script-cleanup pass (lines 415-429): a script is
removed when its non-empty raw `src` matches the deny-list, or its non-empty
body matches the inline tracking signatures. -/
def scriptNodeTracking (src : Option String) (content : String) : Bool :=
  (match src with
   | some s => s ≠ "" && isTrackingScript s
   | none => false)
  || (content ≠ "" && isTrackingScriptContent content)

/-- Script-cleanup pass of `generateHTMLOutput`. -/
def stripScripts (l : List Node) : List Node :=
  l.filter (fun n =>
    match n with
    | .script src c => !(scriptNodeTracking src c)
    | _ => true)

/-- Pass of line 432: `$("noscript").remove()`. -/
def stripNoscript (l : List Node) : List Node :=
  l.filter (fun n =>
    match n with
    | .noscript _ => false
    | _ => true)

/-- Whether an iframe is removed by lines 433-438. -/
def iframeTracking (n : Node) : Bool :=
  match n with
  | .iframe (some s) => s ≠ "" && isTrackingScript s
  | _ => false

/-- Iframe-cleanup pass of `generateHTMLOutput`. -/
def stripTrackingIframes (l : List Node) : List Node :=
  l.filter (fun n => !(iframeTracking n))

/-- Anchor pass of lines 441-447: an href starting with `/` but not `//` is
replaced by `new URL(href, pageInfo.baseUrl).href` (this call is NOT wrapped
in a try/catch, so a failure to resolve aborts `generateHTMLOutput`, modelled
by `none`) and the anchor gains `target="_blank"`. -/
def fixAnchor (baseUrl : String) : Node → Option Node
  | .anchor (some h) tgt =>
    if jsStartsWith h "/" && !(jsStartsWith h "//") then
      match resolveUrl h baseUrl with
      | some abs => some (.anchor (some abs) (some "_blank"))
      | none => none
    else some (.anchor (some h) tgt)
  | n => some n

/-- A node that the cleanup passes of `generateHTMLOutput` leave unchanged:
not a tracking script, not a noscript, not a tracking iframe, and a fixed
point of the anchor pass. -/
def NodeClean (baseUrl : String) (n : Node) : Prop :=
  (match n with
   | .script src c => scriptNodeTracking src c = false
   | .noscript _ => False
   | _ => True) ∧
  iframeTracking n = false ∧
  fixAnchor baseUrl n = some n

/-- Detector for `$("meta[name=viewport]")`. -/
def isViewportMeta (n : Node) : Bool :=
  match n with
  | .meta nm _ => nm == "viewport"
  | _ => false

/-- Detector for `$("meta[name=description]")`. -/
def isDescriptionMeta (n : Node) : Bool :=
  match n with
  | .meta nm _ => nm == "description"
  | _ => false

/-- Detector for `$("style:contains(scroll-behavior)")`. -/
def isScrollStyle (n : Node) : Bool :=
  match n with
  | .styleTag c => jsIncludes c "scroll-behavior"
  | _ => false

/-- Node-removal and anchor-fixing part of `generateHTMLOutput` (lines
415-447), applied to one child list: tracking scripts, noscript tags and
tracking iframes are removed, then every remaining anchor is absolutised
(`none` when `new URL` throws on some anchor). -/
def cleansePass (baseUrl : String) (l : List Node) : Option (List Node) :=
  (stripTrackingIframes (stripNoscript (stripScripts l))).mapM (fixAnchor baseUrl)

/-- Lines 450-454: a viewport meta is prepended to the head when the
document has none. -/
def viewportStep (info : PageInfo) (d : Doc) : Doc :=
  if (allNodes d).any isViewportMeta then d
  else ⟨Node.meta "viewport" info.viewport :: d.head, d.body⟩

/-- Lines 455-459: a description meta is appended when the document has none
and the page metadata carries a non-empty description. -/
def descriptionStep (info : PageInfo) (d : Doc) : Doc :=
  if !((allNodes d).any isDescriptionMeta) && info.description ≠ "" then
    ⟨d.head ++ [Node.meta "description" info.description], d.body⟩
  else d

/-- Lines 489-492: the enhancement style block is appended unless some style
already mentions `scroll-behavior`. -/
def scrollStyleStep (d : Doc) : Doc :=
  if (allNodes d).any isScrollStyle then d
  else ⟨d.head ++ [Node.styleTag enhancementStyles], d.body⟩

/-- Meta and style enhancement part of `generateHTMLOutput` (lines 450-492),
in source order. -/
def metaStylePass (info : PageInfo) (d : Doc) : Doc :=
  scrollStyleStep (descriptionStep info (viewportStep info d))

/-- Model of the document transformation performed by `generateHTMLOutput`
(first variant, lines 410-501; the second variant's lines 919-1010 are
identical): the cleanup/anchor pass over head and body followed by the
meta/style enhancement pass.  The file writes and server-script creation are
side effects outside the document and are not part of the model. -/
def generateHTMLOutput (info : PageInfo) (d : Doc) : Option Doc :=
  match cleansePass info.baseUrl d.head, cleansePass info.baseUrl d.body with
  | some h2, some b2 => some (metaStylePass info ⟨h2, b2⟩)
  | _, _ => none

/-- Asset map returned by the second variant's `downloadAssets` and consumed
by `injectAssetsIntoHTML`. -/
structure AssetMap where
  css : List String
  js : List String
  images : List String
deriving DecidableEq, Repr

/-- Model of `injectAssetsIntoHTML(aiHTML, assetMap)` (second variant, lines
1072-1096): a stylesheet link per collected CSS path is appended to the head
and a script tag per collected JS path to the body (the model document always
has a head, covering the create-if-missing branch). -/
def injectAssetsIntoHTML (d : Doc) (am : AssetMap) : Doc :=
  ⟨d.head ++ am.css.map (fun p => Node.link "stylesheet" (some p)),
   d.body ++ am.js.map (fun p => Node.script (some p) "")⟩

/-- Result record of a `downloadAssets` collaborator as the clone flows see
it: the fulfilled count, the rewritten markup and the collected asset map. -/
structure AssetsResultRec where
  count : Nat
  html : Doc
  assetMap : AssetMap

/-- What a clone run feeds to asset scanning and what it emits. -/
structure CloneFlow where
  scanned : Doc
  finalDoc : Doc

/-- Dataflow of the FIRST variant's `clone` (lines 56-78): `finalHTML` is the
AI-cleaned markup whenever an AI processor is present and `options.useAI` is
not literally `false` (`aiOut = none` models `cleanWithAI` throwing, in which
case the original markup is kept), and `downloadAssets` is invoked on that
markup — the comment in the source reads "Process the AI-cleaned HTML for
assets". -/
def cloneV1Flow (d : Doc) (hasAI : Bool) (useAI : Option Bool) (aiOut : Option Doc)
    (assets : Doc → AssetsResultRec) : CloneFlow :=
  let finalHTML := if hasAI && !(useAI == some false) then
      (match aiOut with
       | some t => t
       | none => d)
    else d
  let ar := assets finalHTML
  ⟨finalHTML, ar.html⟩

/-- Dataflow of the SECOND variant's `clone` (lines 618-658): `downloadAssets`
is invoked on the ORIGINAL markup; when AI processing ran and at least one
asset downloaded, the collected asset map is injected into the AI output,
otherwise the rewritten original markup is used. -/
def cloneV2Flow (d : Doc) (hasAI : Bool) (useAI : Option Bool) (aiOut : Option Doc)
    (assets : Doc → AssetsResultRec) : CloneFlow :=
  let processedHTML := if hasAI && useAI == some true then
      (match aiOut with
       | some t => t
       | none => d)
    else d
  let ar := assets d
  let finalHTML := if hasAI && useAI == some true && 0 < ar.count then
      injectAssetsIntoHTML processedHTML ar.assetMap
    else ar.html
  ⟨d, finalHTML⟩

theorem startsWith_unpack {s pre : String} (h : jsStartsWith s pre = true) :
    ∃ t, s.toList = pre.toList ++ t := by
  unfold jsStartsWith at h
  rw [List.isPrefixOf_iff_prefix] at h
  obtain ⟨t, ht⟩ := h
  exact ⟨t, ht.symm⟩

theorem schemeSplit_parts {s sch rest : String} (h : schemeSplit s = some (sch, rest)) :
    sch ++ ":" ++ rest = s ∧ ∃ c cs, sch.toList = c :: cs ∧ isAsciiAlpha c = true := by
  unfold schemeSplit at h
  split at h
  · exact absurd h (by simp)
  next c cs heq =>
    split at h
    · split at h
      next r hdrop =>
        simp only [Option.some.injEq, Prod.mk.injEq] at h
        obtain ⟨hsch, hrest⟩ := h
        have halpha : isAsciiAlpha c = true := by assumption
        have hschc : isSchemeChar c = true := by
          simp [isSchemeChar, halpha]
        constructor
        · apply String.ext
          rw [← hsch, ← hrest]
          have hj : (String.mk ((c :: cs).takeWhile isSchemeChar) ++ ":" ++ String.mk r).data
              = (c :: cs).takeWhile isSchemeChar ++ (':' :: r) := by
            simp [String.data_append]
          rw [hj]
          rw [← hdrop, List.takeWhile_append_dropWhile]
          exact heq.symm
        · refine ⟨c, List.takeWhile isSchemeChar cs, ?_, by assumption⟩
          rw [← hsch]
          simp [List.takeWhile_cons, hschc]
      next hdrop => exact absurd h (by simp)
    · exact absurd h (by simp)

theorem resolveUrl_noAuth_self {s sch rest : String} {rb : UrlRec} (base : String)
    (hb : parseAbsUrl base = some rb) (hs : schemeSplit s = some (sch, rest))
    (hrest : jsStartsWith rest "//" = false) : resolveUrl s base = some s := by
  have hp : parseAbsUrl s = some (.noAuth sch rest) := by
    unfold parseAbsUrl
    rw [hs]
    simp [hrest]
  unfold resolveUrl
  rw [hb, hp]
  simp only [UrlRec.href, Option.some.injEq]
  exact (schemeSplit_parts hs).1

theorem cssBg_foldr_no_data (base : String) (ts : Nat) (L : List String)
    (acc : List (String × String × String))
    (hacc : ∀ x ∈ acc, jsStartsWith x.1 "data:" = false) :
    ∀ t ∈ L.foldr (cssBgStep base ts) acc, jsStartsWith t.1 "data:" = false := by
  induction L with
  | nil => exact hacc
  | cons u L ih =>
    intro t ht
    simp only [List.foldr_cons] at ht
    unfold cssBgStep at ht
    by_cases hd : jsStartsWith u "data:" = true
    · rw [if_pos hd] at ht
      exact ih t ht
    · rw [if_neg hd] at ht
      rcases hru : resolveUrl u base with _ | abs
      · rw [hru] at ht
        exact ih t ht
      · rw [hru] at ht
        rcases List.mem_cons.mp ht with h1 | h2
        · subst h1
          exact Bool.not_eq_true _ ▸ hd
        · exact ih t h2

theorem issuesFetch_fresh (oc : FetchOutcome) :
    (downloadAssetStatus false oc).issuesFetch = true := by
  rcases oc with ⟨f, w⟩
  cases f <;> cases w <;> rfl

theorem fetchCountFor_inSet (s : List String) (oc : String → FetchOutcome)
    (calls : List (String × String)) (u : String) (h : s.contains u = true) :
    fetchCountFor s oc calls u = 0 := by
  unfold fetchCountFor execPass
  induction calls with
  | nil => rfl
  | cons c cs ih =>
    simp only [List.map_cons, List.countP_cons, ih]
    by_cases hc : c.1 = u
    · rw [hc, h]
      simp [downloadAssetStatus, DAStatus.issuesFetch]
    · simp [beq_eq_false_iff_ne.mpr hc]

/-- C1: the claim says the `downloadedAssets` guard makes two reference
sites that resolve to the same absolute URL produce exactly one network
fetch.  It does not: the guard is read when each call is created but the set
is updated only after a download finishes, so a document with two `img`
elements for the same URL issues two fetches. -/
theorem C1_counterexample :
    fetchCountFor [] (fun _ => ⟨true, true⟩)
      (downloadAssets "http://h.com/" (fun _ => none) 0
        ⟨[], [Node.img (some "http://h.com/x.png") none,
              Node.img (some "http://h.com/x.png") none]⟩).imgCalls
      "http://h.com/x.png" = 2 := by decide

/-- C1 (amended): within one scan pass, every reference site resolving to a
URL that is not yet in the `downloadedAssets` set issues its own fetch (two
sites, two fetches), because the set is only updated after a download
completes; a URL already recorded in the set is never fetched again; and two
sites with the same raw value are rewritten to the same local path. -/
theorem C1_amended (r base u : String) (ts : Nat) (s0 : List String)
    (oc : String → FetchOutcome) (hr : resolveUrl r base = some u) :
    imgPass base ts [Node.img (some r) none, Node.img (some r) none] =
      ([Node.img (some (getFileName r "images" ts)) none,
        Node.img (some (getFileName r "images" ts)) none],
       [(u, getFileName r "images" ts), (u, getFileName r "images" ts)]) ∧
    (s0.contains u = false →
      fetchCountFor s0 oc
        [(u, getFileName r "images" ts), (u, getFileName r "images" ts)] u = 2) ∧
    (∀ (s1 : List String) (oc2 : String → FetchOutcome) (calls : List (String × String)),
      s1.contains u = true → fetchCountFor s1 oc2 calls u = 0) := by
  refine ⟨?_, ?_, ?_⟩
  · simp [imgPass, hr]
  · intro h
    have h2 : u ∉ s0 := by simpa using h
    simp [fetchCountFor, execPass, List.countP_cons, h2, issuesFetch_fresh]
  · intro s1 oc2 calls h
    exact fetchCountFor_inSet s1 oc2 calls u h

/-- C1 witness: the amended statement applied at a concrete duplicated
reference and at a concrete already-downloaded URL. -/
theorem C1_amended_witness :
    fetchCountFor [] (fun _ => ⟨true, true⟩)
      [("http://h.com/x.png", "x.png"), ("http://h.com/x.png", "x.png")]
      "http://h.com/x.png" = 2 ∧
    fetchCountFor ["http://h.com/x.png"] (fun _ => ⟨true, true⟩)
      [("http://h.com/x.png", "x.png")] "http://h.com/x.png" = 0 := by
  have H := C1_amended "http://h.com/x.png" "http://h.com/" "http://h.com/x.png" 0 []
    (fun _ => ⟨true, true⟩) (by decide)
  exact ⟨H.2.1 (by decide), H.2.2 ["http://h.com/x.png"] (fun _ => ⟨true, true⟩)
    [("http://h.com/x.png", "x.png")] (by decide)⟩

set_option maxRecDepth 4000 in
/-- C2: the claim says a failed image fetch leaves the reference pointing at
the original remote URL.  It does not: the `src` attribute is rewritten to
the local filename at scan time, before any download settles, so when the
only fetch fails (nothing written), the document still carries the local
path `a.png` rather than the remote URL. -/
theorem C2_counterexample :
    (downloadAssets "http://h.com/" (fun _ => none) 0
        ⟨[], [Node.img (some "http://h.com/a.png") none]⟩).doc =
      ⟨[], [Node.img (some "a.png") none]⟩ ∧
    writtenCount [] (fun _ => ⟨false, false⟩)
      (downloadAssets "http://h.com/" (fun _ => none) 0
        ⟨[], [Node.img (some "http://h.com/a.png") none]⟩).imgCalls = 0 ∧
    generateHTMLOutput ⟨"t", "", "", "w", "", "http://h.com/"⟩
        (downloadAssets "http://h.com/" (fun _ => none) 0
          ⟨[], [Node.img (some "http://h.com/a.png") none]⟩).doc =
      some ⟨[Node.meta "viewport" "w", Node.styleTag enhancementStyles],
            [Node.img (some "a.png") none]⟩ := by
  refine ⟨by decide, by decide, by decide⟩

/-- C2 (amended): image and icon references are rewritten at scan time,
solely according to whether the raw value resolves — independent of any
fetch outcome.  A reference with a resolvable raw value is always rewritten
to the derived local filename (dangling if the fetch later fails); only a
reference whose raw value does not resolve is left untouched. -/
theorem C2_amended (base r u : String) (ts : Nat) (ss : Option String) :
    (resolveUrl r base = some u →
      imgPass base ts [Node.img (some r) ss] =
        ([Node.img (some (getFileName r "images" ts)) ss], [(u, getFileName r "images" ts)])) ∧
    (resolveUrl r base = none →
      imgPass base ts [Node.img (some r) ss] = ([Node.img (some r) ss], [])) ∧
    (∀ rel, iconRels.contains rel = true → resolveUrl r base = some u →
      iconPass base ts [Node.link rel (some r)] =
        ([Node.link rel (some (getFileName r "images" ts))], [(u, getFileName r "images" ts)])) := by
  refine ⟨?_, ?_, ?_⟩
  · intro h
    simp [imgPass, h]
  · intro h
    simp [imgPass, h]
  · intro rel hrel h
    have hrel2 : rel ∈ iconRels := by simpa using hrel
    simp [iconPass, hrel2, h]

/-- C2 witness: the amended statement applied at a resolvable reference, an
unresolvable reference, and an icon link. -/
theorem C2_amended_witness :
    imgPass "http://h.com/" 3 [Node.img (some "http://h.com/a.png") none] =
      ([Node.img (some "a.png") none], [("http://h.com/a.png", "a.png")]) ∧
    imgPass "nonsense" 3 [Node.img (some "/a.png") none] =
      ([Node.img (some "/a.png") none], []) ∧
    iconPass "http://h.com/" 3 [Node.link "icon" (some "/f.ico")] =
      ([Node.link "icon" (some "image_3.png")], [("http://h.com/f.ico", "image_3.png")]) := by
  refine ⟨(C2_amended "http://h.com/" "http://h.com/a.png" "http://h.com/a.png" 3 none).1
      (by decide),
    (C2_amended "nonsense" "/a.png" "" 3 none).2.1 (by decide),
    (C2_amended "http://h.com/" "/f.ico" "http://h.com/f.ico" 3 none).2.2 "icon"
      (by decide) (by decide)⟩

/-- C9: the `downloadedAssets` set is per-instance and never cleared: after
a successful download of a URL, any later `downloadAsset` call for the same
URL on the same instance — with any target path, so also during a later
clone run into a different output directory — is skipped without issuing a
fetch or writing a file, while the later run's scan still rewrites its
document to the local path. -/
theorem C9_dedup_persistent (s0 : List String) (url : String) (oc1 oc2 : FetchOutcome)
    (h0 : s0.contains url = false) (hf : oc1.fetchOk = true) (hw : oc1.writeOk = true)
    (base2 r : String) (ts2 : Nat) (oc3 : String → FetchOutcome)
    (hr : resolveUrl r base2 = some url) :
    downloadAssetRun s0 oc1 url = (url :: s0, DAStatus.success) ∧
    downloadAssetRun (url :: s0) oc2 url = (url :: s0, DAStatus.skipped) ∧
    DAStatus.skipped.issuesFetch = false ∧
    DAStatus.skipped.writesFile = false ∧
    imgPass base2 ts2 [Node.img (some r) none] =
      ([Node.img (some (getFileName r "images" ts2)) none],
       [(url, getFileName r "images" ts2)]) ∧
    fetchCountFor (url :: s0) oc3 [(url, getFileName r "images" ts2)] url = 0 := by
  refine ⟨?_, ?_, rfl, rfl, ?_, ?_⟩
  · have h0b : url ∉ s0 := by simpa using h0
    unfold downloadAssetRun downloadAssetStatus
    simp [h0b, hf, hw]
  · unfold downloadAssetRun downloadAssetStatus
    simp
  · simp [imgPass, hr]
  · exact fetchCountFor_inSet _ _ _ _ (by simp)

/-- C9 witness: the statement applied at a concrete URL downloaded by a
first run and referenced again by a second run against a different base. -/
theorem C9_witness :
    downloadAssetRun [] ⟨true, true⟩ "http://h.com/logo.png" =
      (["http://h.com/logo.png"], DAStatus.success) ∧
    downloadAssetRun ["http://h.com/logo.png"] ⟨true, true⟩ "http://h.com/logo.png" =
      (["http://h.com/logo.png"], DAStatus.skipped) ∧
    DAStatus.skipped.issuesFetch = false ∧
    DAStatus.skipped.writesFile = false ∧
    imgPass "http://h.com/sub/" 9 [Node.img (some "/logo.png") none] =
      ([Node.img (some "image_9.png") none], [("http://h.com/logo.png", "image_9.png")]) ∧
    fetchCountFor ["http://h.com/logo.png"] (fun _ => ⟨true, true⟩)
      [("http://h.com/logo.png", "image_9.png")] "http://h.com/logo.png" = 0 := by
  have H := C9_dedup_persistent [] "http://h.com/logo.png" ⟨true, true⟩ ⟨true, true⟩
    (by decide) (by decide) (by decide) "http://h.com/sub/" "/logo.png" 9
    (fun _ => ⟨true, true⟩) (by decide)
  exact H

/-- C5: the claim says `resolveUrl` signals NotFetchable on `data:`,
`javascript:` and `#` references.  It does not: all three resolve to concrete
absolute URLs (the first two to themselves, the last against the base). -/
theorem C5_counterexample :
    resolveUrl "data:image/png;base64,AA" "http://example.com/" = some "data:image/png;base64,AA" ∧
    resolveUrl "javascript:void(0)" "http://example.com/" = some "javascript:void(0)" ∧
    resolveUrl "#top" "http://example.com/page" = some "http://example.com/page#top" := by
  exact ⟨by decide, by decide, by decide⟩

/-- C5 (amended): whenever the base itself parses, `resolveUrl` resolves
`data:` and `javascript:` references to themselves, and `#` references
against an authority base; it returns `none` only when the base or the
reference fails to parse.  Raw values beginning with `data:` are skipped,
without being fetched, only in the CSS `url(...)` background-image pass. -/
theorem C5_amended :
    (∀ (s base : String) (rb : UrlRec), parseAbsUrl base = some rb →
      jsStartsWith s "data:" = true →
      jsStartsWith (String.mk (s.toList.drop 5)) "//" = false →
      resolveUrl s base = some s) ∧
    (∀ (s base : String) (rb : UrlRec), parseAbsUrl base = some rb →
      jsStartsWith s "javascript:" = true →
      jsStartsWith (String.mk (s.toList.drop 11)) "//" = false →
      resolveUrl s base = some s) ∧
    (∀ (s base sch host p q f : String), jsStartsWith s "#" = true →
      parseAbsUrl base = some (.auth sch host p q f) →
      resolveUrl s base = some (sch ++ "://" ++ host ++ p ++ q ++ s)) ∧
    (∀ (base : String) (ts : Nat) (css : String),
      ∀ t ∈ cssBgCalls base ts css, jsStartsWith t.1 "data:" = false) := by
  refine ⟨?_, ?_, ?_, ?_⟩
  · intro s base rb hb h1 h2
    obtain ⟨t, ht⟩ := startsWith_unpack h1
    have hs : schemeSplit s = some ("data", String.mk t) := by
      unfold schemeSplit
      rw [ht]
      rfl
    have h2b : jsStartsWith (String.mk t) "//" = false := by
      rw [ht] at h2
      exact h2
    exact resolveUrl_noAuth_self base hb hs h2b
  · intro s base rb hb h1 h2
    obtain ⟨t, ht⟩ := startsWith_unpack h1
    have hs : schemeSplit s = some ("javascript", String.mk t) := by
      unfold schemeSplit
      rw [ht]
      rfl
    have h2b : jsStartsWith (String.mk t) "//" = false := by
      rw [ht] at h2
      exact h2
    exact resolveUrl_noAuth_self base hb hs h2b
  · intro s base sch host p q f h1 h2
    obtain ⟨t, ht⟩ := startsWith_unpack h1
    have hp : parseAbsUrl s = none := by
      unfold parseAbsUrl schemeSplit
      rw [ht]
      rfl
    have hss : jsStartsWith s "//" = false := by
      unfold jsStartsWith
      rw [ht]
      rfl
    unfold resolveUrl
    rw [h2, hp]
    simp [hss, h1]
  · intro base ts css t ht
    exact cssBg_foldr_no_data base ts _ [] (by simp) t ht

/-- C5 witness: the amended statement applied at concrete inputs with a
parseable base. -/
theorem C5_amended_witness :
    resolveUrl "data:text/plain,hi" "http://e.com/" = some "data:text/plain,hi" ∧
    resolveUrl "javascript:alert(1)" "http://e.com/" = some "javascript:alert(1)" ∧
    resolveUrl "#a" "http://h.com/p" = some ("http" ++ "://" ++ "h.com" ++ "/p" ++ "" ++ "#a") ∧
    jsStartsWith ("a.png", "http://h.com/a.png", "image_0.png").1 "data:" = false := by
  refine ⟨?_, ?_, ?_, ?_⟩
  · exact C5_amended.1 "data:text/plain,hi" "http://e.com/"
      (UrlRec.auth "http" "e.com" "/" "" "") (by decide) (by decide) (by decide)
  · exact C5_amended.2.1 "javascript:alert(1)" "http://e.com/"
      (UrlRec.auth "http" "e.com" "/" "" "") (by decide) (by decide) (by decide)
  · exact C5_amended.2.2.1 "#a" "http://h.com/p" "http" "h.com" "/p" "" "" (by decide) (by decide)
  · exact C5_amended.2.2.2 "http://h.com/" 0 "url(a.png)"
      ("a.png", "http://h.com/a.png", "image_0.png") (by decide)

/-- C3: the claim says two different URLs deriving the same filename are
resolved to separate local files by a disambiguating suffix.  They are not:
the two distinct URLs of the spec scenario (query string differs) derive the
IDENTICAL filename, so both downloads target the same local file. -/
theorem C3_counterexample :
    ("http://cdn.example.com/x.png" : String) ≠ "http://cdn.example.com/x.png?v=2" ∧
    getFileName "http://cdn.example.com/x.png" "images" 0 = "x.png" ∧
    getFileName "http://cdn.example.com/x.png?v=2" "images" 0 = "x.png" := by
  exact ⟨by decide, by decide, by decide⟩

/-- C3 (amended): `getFileName` depends only on the URL pathname — two
parseable URLs with equal pathnames (for example equal paths with different
query strings) derive the identical filename, with no disambiguating suffix,
so the later download overwrites the earlier file. -/
theorem C3_amended (u1 u2 ty : String) (ts : Nat) (r1 r2 : UrlRec)
    (h1 : parseAbsUrl u1 = some r1) (h2 : parseAbsUrl u2 = some r2)
    (hp : r1.pathname = r2.pathname) :
    getFileName u1 ty ts = getFileName u2 ty ts := by
  have e1 : getFileName u1 ty ts = getFileNameResolved ty r1.pathname := by
    unfold getFileName
    rw [h1]
  have e2 : getFileName u2 ty ts = getFileNameResolved ty r2.pathname := by
    unfold getFileName
    rw [h2]
  rw [e1, e2, hp]

/-- C3 witness: the amended statement applied at the spec scenario pair. -/
theorem C3_amended_witness :
    getFileName "http://cdn.example.com/x.png" "images" 5 =
      getFileName "http://cdn.example.com/x.png?v=2" "images" 5 :=
  C3_amended "http://cdn.example.com/x.png" "http://cdn.example.com/x.png?v=2" "images" 5
    (UrlRec.auth "http" "cdn.example.com" "/x.png" "" "")
    (UrlRec.auth "http" "cdn.example.com" "/x.png" "?v=2" "")
    (by decide) (by decide) (by decide)

/-- C6: a failed image fetch (here the single attempted download, whose
HTTP request fails) is counted as FULFILLED by the `Promise.allSettled`
filter, because the catch block inside `downloadAsset` swallows the error:
the clone reports `1/1` downloaded although zero assets were written.  The
claim — that the reported count equals the number of assets actually fetched
and written — matches the evident intent of the `successful` counter, so
this is a code bug. -/
theorem C6_code_bug :
    fulfilledCount [] (fun _ => ⟨false, false⟩) [("http://example.com/a.png", "a.png")] = 1 ∧
    writtenCount [] (fun _ => ⟨false, false⟩) [("http://example.com/a.png", "a.png")] = 0 := by
  exact ⟨by decide, by decide⟩

theorem mapM_option_mem {f : Node → Option Node} :
    ∀ {l l2 : List Node}, l.mapM f = some l2 → ∀ n ∈ l2, ∃ m ∈ l, f m = some n := by
  intro l
  induction l with
  | nil =>
    intro l2 h n hn
    simp only [List.mapM_nil] at h
    have h2 : ([] : List Node) = l2 := Option.some.inj h
    subst h2
    simp at hn
  | cons a t ih =>
    intro l2 h n hn
    rw [List.mapM_cons] at h
    rcases hfa : f a with _ | b
    · rw [hfa] at h
      simp at h
    · rw [hfa] at h
      rcases hmt : t.mapM f with _ | bs
      · rw [hmt] at h
        simp at h
      · rw [hmt] at h
        simp at h
        subst h
        rcases List.mem_cons.mp hn with h1 | h2
        · refine ⟨a, List.mem_cons_self a t, ?_⟩
          rw [← h1] at hfa
          exact hfa
        · obtain ⟨m, hm, hfm⟩ := ih hmt n h2
          exact ⟨m, List.mem_cons_of_mem a hm, hfm⟩

theorem mem_stripScripts_prop {l : List Node} {n : Node} (h : n ∈ stripScripts l) :
    n ∈ l ∧ ∀ src c, n = Node.script src c → scriptNodeTracking src c = false := by
  unfold stripScripts at h
  have h2 := List.mem_filter.mp h
  refine ⟨h2.1, ?_⟩
  intro src c hn
  subst hn
  simpa using h2.2

theorem mem_stripNoscript_prop {l : List Node} {n : Node} (h : n ∈ stripNoscript l) :
    n ∈ l ∧ ∀ c, n ≠ Node.noscript c := by
  unfold stripNoscript at h
  have h2 := List.mem_filter.mp h
  refine ⟨h2.1, ?_⟩
  intro c hn
  subst hn
  simpa using h2.2

theorem mem_stripIframes_prop {l : List Node} {n : Node} (h : n ∈ stripTrackingIframes l) :
    n ∈ l ∧ iframeTracking n = false := by
  unfold stripTrackingIframes at h
  have h2 := List.mem_filter.mp h
  exact ⟨h2.1, by simpa using h2.2⟩

theorem fixAnchor_anchor_some (base hh : String) (tgt : Option String) :
    fixAnchor base (Node.anchor (some hh) tgt) =
      if jsStartsWith hh "/" && !jsStartsWith hh "//" then
        match resolveUrl hh base with
        | some abs => some (Node.anchor (some abs) (some "_blank"))
        | none => none
      else some (Node.anchor (some hh) tgt) := rfl

theorem fixAnchor_to_script {base : String} {m : Node} {src : Option String} {c : String}
    (h : fixAnchor base m = some (Node.script src c)) : m = Node.script src c := by
  cases m with
  | script src2 c2 => exact Option.some.inj h
  | anchor oh tgt =>
    cases oh with
    | none => exact absurd (Option.some.inj h) (by simp)
    | some hh =>
      rw [fixAnchor_anchor_some] at h
      split at h
      · rcases hru : resolveUrl hh base with _ | abs
        · rw [hru] at h
          simp at h
        · rw [hru] at h
          exact absurd (Option.some.inj h) (by simp)
      · exact absurd (Option.some.inj h) (by simp)
  | styleTag c2 => exact absurd (Option.some.inj h) (by simp)
  | link rel href => exact absurd (Option.some.inj h) (by simp)
  | img si ss => exact absurd (Option.some.inj h) (by simp)
  | noscript c2 => exact absurd (Option.some.inj h) (by simp)
  | iframe si => exact absurd (Option.some.inj h) (by simp)
  | meta nm c2 => exact absurd (Option.some.inj h) (by simp)
  | other tag => exact absurd (Option.some.inj h) (by simp)

theorem viewportStep_mem {info : PageInfo} {d : Doc} {n : Node}
    (h : n ∈ allNodes (viewportStep info d)) :
    n ∈ allNodes d ∨ n = Node.meta "viewport" info.viewport := by
  unfold viewportStep at h
  split at h
  · exact Or.inl h
  · simp only [allNodes, List.cons_append, List.mem_cons] at h
    rcases h with h1 | h2
    · exact Or.inr h1
    · exact Or.inl h2

theorem descriptionStep_mem {info : PageInfo} {d : Doc} {n : Node}
    (h : n ∈ allNodes (descriptionStep info d)) :
    n ∈ allNodes d ∨ n = Node.meta "description" info.description := by
  unfold descriptionStep at h
  split at h
  · simp only [allNodes, List.append_assoc, List.mem_append, List.mem_singleton] at h ⊢
    tauto
  · exact Or.inl h

theorem scrollStyleStep_mem {d : Doc} {n : Node} (h : n ∈ allNodes (scrollStyleStep d)) :
    n ∈ allNodes d ∨ n = Node.styleTag enhancementStyles := by
  unfold scrollStyleStep at h
  split at h
  · exact Or.inl h
  · simp only [allNodes, List.append_assoc, List.mem_append, List.mem_singleton] at h ⊢
    tauto

theorem metaStyle_mem {info : PageInfo} {dd : Doc} {n : Node}
    (h : n ∈ allNodes (metaStylePass info dd)) :
    n ∈ allNodes dd ∨ n = Node.meta "viewport" info.viewport ∨
      n = Node.meta "description" info.description ∨ n = Node.styleTag enhancementStyles := by
  unfold metaStylePass at h
  rcases scrollStyleStep_mem h with h1 | h1
  · rcases descriptionStep_mem h1 with h2 | h2
    · rcases viewportStep_mem h2 with h3 | h3
      · exact Or.inl h3
      · exact Or.inr (Or.inl h3)
    · exact Or.inr (Or.inr (Or.inl h2))
  · exact Or.inr (Or.inr (Or.inr h1))

theorem cleanse_no_tracking_script {base : String} {l l2 : List Node} {src : Option String}
    {c : String} (h : cleansePass base l = some l2)
    (htr : scriptNodeTracking src c = true) : Node.script src c ∉ l2 := by
  intro hmem
  unfold cleansePass at h
  obtain ⟨m, hm, hfm⟩ := mapM_option_mem h _ hmem
  have hms := fixAnchor_to_script hfm
  subst hms
  have h1 := mem_stripIframes_prop hm
  have h2 := mem_stripNoscript_prop h1.1
  have h3 := mem_stripScripts_prop h2.1
  have h4 := h3.2 src c rfl
  rw [htr] at h4
  exact absurd h4 (by simp)

theorem generate_no_tracking_script {info : PageInfo} {d d2 : Doc} {src : Option String}
    {c : String} (h : generateHTMLOutput info d = some d2)
    (htr : scriptNodeTracking src c = true) : Node.script src c ∉ allNodes d2 := by
  intro hmem
  unfold generateHTMLOutput at h
  rcases hh : cleansePass info.baseUrl d.head with _ | h2
  · rw [hh] at h
    simp at h
  · rw [hh] at h
    rcases hb : cleansePass info.baseUrl d.body with _ | b2
    · rw [hb] at h
      simp at h
    · rw [hb] at h
      have hd2 := Option.some.inj h
      subst hd2
      rcases metaStyle_mem hmem with hbase | h1 | h1 | h1
      · rcases List.mem_append.mp hbase with hmem2 | hmem2
        · exact cleanse_no_tracking_script hh htr hmem2
        · exact cleanse_no_tracking_script hb htr hmem2
      · exact absurd h1 (by simp)
      · exact absurd h1 (by simp)
      · exact absurd h1 (by simp)

theorem inlineJsPass_cons_script_none (c : String) (rest : List Node) :
    inlineJsPass (Node.script none c :: rest) =
      if isTrackingScriptContent c then
        (Node.script none c :: (inlineJsPass rest).1,
         (inlineJsPass rest).2.1, (inlineJsPass rest).2.2)
      else ((inlineJsPass rest).1, c ++ "\n" ++ (inlineJsPass rest).2.1,
            c :: (inlineJsPass rest).2.2) := rfl

theorem inlineJsPass_merged_not_tracking :
    ∀ (l : List Node) (c : String), c ∈ (inlineJsPass l).2.2 →
      isTrackingScriptContent c = false := by
  intro l
  induction l with
  | nil =>
    intro c hc
    simp [inlineJsPass] at hc
  | cons n rest ih =>
    intro c hc
    cases n with
    | script src c2 =>
      cases src with
      | none =>
        by_cases htr : isTrackingScriptContent c2 = true
        · rw [inlineJsPass_cons_script_none, if_pos htr] at hc
          exact ih c hc
        · rw [inlineJsPass_cons_script_none, if_neg htr] at hc
          rcases List.mem_cons.mp hc with h1 | h2
          · subst h1
            exact Bool.not_eq_true _ ▸ htr
          · exact ih c h2
      | some s => exact ih c hc
    | styleTag c2 => exact ih c hc
    | link rel href => exact ih c hc
    | img si ss => exact ih c hc
    | noscript c2 => exact ih c hc
    | iframe si => exact ih c hc
    | anchor oh tgt => exact ih c hc
    | meta nm c2 => exact ih c hc
    | other tag => exact ih c hc

/-- C10: inline-script tracking classification is plain substring matching:
any body containing one of the fixed patterns anywhere is classified as
tracking, its content is never merged into the behavior bundle, and its node
never appears in the final document. -/
theorem C10_tracking_content (pat body : String) (hp : pat ∈ trackingContentPatterns)
    (hb : jsIncludes body pat = true) :
    isTrackingScriptContent body = true ∧
    (∀ l : List Node, body ∉ (inlineJsPass l).2.2) ∧
    (∀ (info : PageInfo) (d d2 : Doc), generateHTMLOutput info d = some d2 →
      Node.script none body ∉ allNodes d2) := by
  have h1 : isTrackingScriptContent body = true := by
    unfold isTrackingScriptContent
    exact List.any_eq_true.mpr ⟨pat, hp, hb⟩
  refine ⟨h1, ?_, ?_⟩
  · intro l hmem
    have h2 := inlineJsPass_merged_not_tracking l body hmem
    rw [h1] at h2
    exact absurd h2 (by simp)
  · intro info d d2 hgen
    have hne : body ≠ "" := by
      intro hb0
      rw [hb0] at hb
      fin_cases hp <;> exact absurd hb (by decide)
    have htr : scriptNodeTracking none body = true := by
      simp [scriptNodeTracking, hne, h1]
    exact generate_no_tracking_script hgen htr

set_option maxRecDepth 10000 in
/-- C10 witness: the statement applied to a concrete `dataLayer` snippet. -/
theorem C10_witness :
    isTrackingScriptContent "window.dataLayer = window.dataLayer || [];" = true ∧
    "window.dataLayer = window.dataLayer || [];" ∉
      (inlineJsPass [Node.script none "window.dataLayer = window.dataLayer || [];"]).2.2 ∧
    Node.script none "window.dataLayer = window.dataLayer || [];" ∉
      allNodes ⟨[Node.meta "viewport" "w", Node.styleTag enhancementStyles], []⟩ := by
  have H := C10_tracking_content "dataLayer" "window.dataLayer = window.dataLayer || [];"
    (by decide) (by decide)
  refine ⟨H.1, H.2.1 [Node.script none "window.dataLayer = window.dataLayer || [];"], ?_⟩
  exact H.2.2 ⟨"t", "", "", "w", "", "http://h.com/"⟩ ⟨[], []⟩
    ⟨[Node.meta "viewport" "w", Node.styleTag enhancementStyles], []⟩ (by decide)

theorem extJsPass_tracking_drop (base : String) (ftext : String → Option String)
    (s c : String) (rest : List Node) (h : isTrackingScript s = true) :
    extJsPass base ftext (Node.script (some s) c :: rest) = extJsPass base ftext rest := by
  have hcond : ((s = "" : Bool) || isTrackingScript s) = true := by
    simp [h]
  show (if (s = "" : Bool) || isTrackingScript s then _ else _) = _
  rw [if_pos hcond]

/-- C4: the claim says a script reference whose RESOLVED URL matches the
deny-list is never fetched.  The filter actually tests the raw attribute
value: a relative `gtm.js` against a `googletagmanager.com` base resolves to
a deny-listed URL, yet the scan fetches it (and merges the fetched tracking
code into the behavior bundle). -/
theorem C4_counterexample :
    isTrackingScript "https://www.googletagmanager.com/gtm.js" = true ∧
    resolveUrl "gtm.js" "https://www.googletagmanager.com/" =
      some "https://www.googletagmanager.com/gtm.js" ∧
    (downloadAssets "https://www.googletagmanager.com/" (fun _ => some "track()") 0
        ⟨[], [Node.script (some "gtm.js") ""]⟩).jsFetched =
      ["https://www.googletagmanager.com/gtm.js"] ∧
    (downloadAssets "https://www.googletagmanager.com/" (fun _ => some "track()") 0
        ⟨[], [Node.script (some "gtm.js") ""]⟩).combinedJS = "track()\n" := by
  refine ⟨by decide, by decide, by decide, by decide⟩

/-- C4 (amended): the tracking filter is a substring match on the RAW `src`
attribute value, not on the resolved URL: every script reference whose raw
value matches the deny-list is removed by `downloadAssets` without any fetch,
and `generateHTMLOutput` removes every script whose raw `src` matches, so no
such node appears in the final document. -/
theorem C4_amended (s : String) (h : isTrackingScript s = true) :
    (∀ (base : String) (ftext : String → Option String) (c : String) (rest : List Node),
      extJsPass base ftext (Node.script (some s) c :: rest) = extJsPass base ftext rest) ∧
    (∀ (info : PageInfo) (d d2 : Doc), generateHTMLOutput info d = some d2 →
      ∀ c, Node.script (some s) c ∉ allNodes d2) := by
  constructor
  · intro base ftext c rest
    exact extJsPass_tracking_drop base ftext s c rest h
  · intro info d d2 hgen c
    have hne : s ≠ "" := by
      intro h0
      rw [h0] at h
      exact absurd h (by decide)
    have htr : scriptNodeTracking (some s) c = true := by
      simp [scriptNodeTracking, hne, h]
    exact generate_no_tracking_script hgen htr

set_option maxRecDepth 10000 in
/-- C4 witness: the amended statement applied to a concrete deny-listed raw
src value. -/
theorem C4_witness :
    extJsPass "http://h.com/" (fun _ => some "x")
        (Node.script (some "https://static.hotjar.com/c.js") "" :: []) =
      extJsPass "http://h.com/" (fun _ => some "x") [] ∧
    Node.script (some "https://static.hotjar.com/c.js") "" ∉
      allNodes ⟨[Node.meta "viewport" "w", Node.styleTag enhancementStyles], []⟩ := by
  have H := C4_amended "https://static.hotjar.com/c.js" (by decide)
  refine ⟨H.1 "http://h.com/" (fun _ => some "x") "" [], ?_⟩
  exact H.2 ⟨"t", "", "", "w", "", "http://h.com/"⟩ ⟨[], []⟩
    ⟨[Node.meta "viewport" "w", Node.styleTag enhancementStyles], []⟩ (by decide) ""

/-- C8: the claim says asset scanning always operates on the original
captured markup.  The FIRST variant's clone passes the AI-cleaned markup to
`downloadAssets` (its comment reads "Process the AI-cleaned HTML for
assets"), so with AI enabled the scanned document is the AI output, not the
original. -/
theorem C8_counterexample :
    (cloneV1Flow ⟨[], [Node.other "orig"]⟩ true (some true) (some ⟨[], [Node.other "ai"]⟩)
        (fun d => ⟨0, d, ⟨[], [], []⟩⟩)).scanned = ⟨[], [Node.other "ai"]⟩ ∧
    (⟨[], [Node.other "ai"]⟩ : Doc) ≠ ⟨[], [Node.other "orig"]⟩ := by
  exact ⟨rfl, by decide⟩

/-- C8 (amended): the SECOND variant's clone always scans the original
markup and, when AI processing ran and at least one asset was counted,
injects the collected asset map into the AI output; otherwise it emits the
rewritten original.  The first variant instead hands the AI-cleaned markup
to `downloadAssets`. -/
theorem C8_amended (d : Doc) (hasAI : Bool) (useAI : Option Bool) (aiOut : Option Doc)
    (assets : Doc → AssetsResultRec) :
    (cloneV2Flow d hasAI useAI aiOut assets).scanned = d ∧
    (∀ a : Doc, hasAI = true → useAI = some true → aiOut = some a →
      0 < (assets d).count →
      (cloneV2Flow d hasAI useAI aiOut assets).finalDoc =
        injectAssetsIntoHTML a (assets d).assetMap) ∧
    ((hasAI && useAI == some true) = false →
      (cloneV2Flow d hasAI useAI aiOut assets).finalDoc = (assets d).html) ∧
    (∀ a : Doc, cloneV1Flow d true (some true) (some a) assets = ⟨a, (assets a).html⟩) := by
  refine ⟨rfl, ?_, ?_, ?_⟩
  · intro a h1 h2 h3 h4
    subst h1
    subst h2
    subst h3
    simp [cloneV2Flow, h4]
  · intro h
    unfold cloneV2Flow
    simp [h]
  · intro a
    rfl

/-- C8 witness: the amended statement applied at a concrete original
document, AI output and asset result, and at a run without AI. -/
theorem C8_amended_witness :
    (cloneV2Flow ⟨[], [Node.other "o"]⟩ true (some true) (some ⟨[], [Node.other "a"]⟩)
        (fun d => ⟨1, d, ⟨["style.css"], [], []⟩⟩)).scanned = ⟨[], [Node.other "o"]⟩ ∧
    (cloneV2Flow ⟨[], [Node.other "o"]⟩ true (some true) (some ⟨[], [Node.other "a"]⟩)
        (fun d => ⟨1, d, ⟨["style.css"], [], []⟩⟩)).finalDoc =
      injectAssetsIntoHTML ⟨[], [Node.other "a"]⟩ ⟨["style.css"], [], []⟩ ∧
    (cloneV2Flow ⟨[], [Node.other "o"]⟩ false none none
        (fun d => ⟨1, d, ⟨["style.css"], [], []⟩⟩)).finalDoc = ⟨[], [Node.other "o"]⟩ ∧
    cloneV1Flow ⟨[], [Node.other "o"]⟩ true (some true) (some ⟨[], [Node.other "a"]⟩)
        (fun d => ⟨1, d, ⟨["style.css"], [], []⟩⟩) =
      ⟨⟨[], [Node.other "a"]⟩, ⟨[], [Node.other "a"]⟩⟩ := by
  have H := C8_amended ⟨[], [Node.other "o"]⟩ true (some true) (some ⟨[], [Node.other "a"]⟩)
    (fun d => ⟨1, d, ⟨["style.css"], [], []⟩⟩)
  have H2 := C8_amended ⟨[], [Node.other "o"]⟩ false none none
    (fun d => ⟨1, d, ⟨["style.css"], [], []⟩⟩)
  exact ⟨H.1, H.2.1 ⟨[], [Node.other "a"]⟩ rfl rfl rfl (by decide),
    H2.2.2.1 (by decide), H.2.2.2 ⟨[], [Node.other "a"]⟩⟩

theorem isAsciiAlpha_ne_slash {c : Char} (h : isAsciiAlpha c = true) : ('/' == c) = false := by
  cases hb : ('/' == c)
  · rfl
  · have hc : '/' = c := beq_iff_eq.mp hb
    rw [← hc] at h
    exact absurd h (by decide)

theorem isPrefixOf_slash_false {l : List Char} {c : Char} (hh : l.head? = some c)
    (hne : ('/' == c) = false) : List.isPrefixOf ['/'] l = false := by
  cases l with
  | nil => simp at hh
  | cons a t =>
    simp only [List.head?_cons, Option.some.injEq] at hh
    subst hh
    show (('/' == a) && List.isPrefixOf ([] : List Char) t) = false
    rw [hne, Bool.false_and]

theorem parseAbs_auth_scheme {s sch host p q f : String}
    (h : parseAbsUrl s = some (.auth sch host p q f)) :
    ∃ c cs, sch.toList = c :: cs ∧ isAsciiAlpha c = true := by
  unfold parseAbsUrl at h
  split at h
  · simp at h
  next sch0 rest heq =>
    split at h
    next hss =>
      have h2 := Option.some.inj h
      simp only [UrlRec.auth.injEq] at h2
      obtain ⟨c, cs, hc, ha⟩ := (schemeSplit_parts heq).2
      exact ⟨c, cs, h2.1 ▸ hc, ha⟩
    next hss =>
      exact absurd (Option.some.inj h) (by simp)

theorem resolve_slash {hh base abs : String} (h1 : jsStartsWith hh "/" = true)
    (h2 : jsStartsWith hh "//" = false) (hr : resolveUrl hh base = some abs) :
    jsStartsWith abs "/" = false := by
  obtain ⟨t, ht⟩ := startsWith_unpack h1
  have hp : parseAbsUrl hh = none := by
    unfold parseAbsUrl schemeSplit
    rw [ht]
    rfl
  have h3 : jsStartsWith hh "#" = false := by
    unfold jsStartsWith
    rw [ht]
    rfl
  unfold resolveUrl at hr
  split at hr
  · simp at hr
  next b heqb =>
    split at hr
    next u heq =>
      rw [hp] at heq
      exact absurd heq (by simp)
    next =>
      split at hr
      · simp at hr
      next sch host p q f =>
        rw [if_neg (by simp [h2]), if_neg (by simp [h3]), if_pos h1] at hr
        have he := Option.some.inj hr
        obtain ⟨c, cs, hc, ha⟩ := parseAbs_auth_scheme heqb
        rw [← he]
        unfold jsStartsWith
        apply isPrefixOf_slash_false (c := c)
        · show ((sch ++ "://" ++ host ++ (splitPQF hh).1 ++ (splitPQF hh).2.1 ++
              (splitPQF hh).2.2)).data.head? = some c
          simp only [String.data_append]
          rw [show sch.data = c :: cs from hc]
          simp
        · exact isAsciiAlpha_ne_slash ha

theorem fixAnchor_idem {base : String} {m n : Node} (h : fixAnchor base m = some n) :
    fixAnchor base n = some n := by
  cases m with
  | anchor oh tgt =>
    cases oh with
    | none =>
      have h2 := Option.some.inj h
      subst h2
      rfl
    | some hh =>
      rw [fixAnchor_anchor_some] at h
      split at h
      next hcond =>
        rcases hru : resolveUrl hh base with _ | abs
        · rw [hru] at h
          simp at h
        · rw [hru] at h
          have h2 := Option.some.inj h
          subst h2
          have hsl : jsStartsWith hh "/" = true := by
            cases hx : jsStartsWith hh "/"
            · rw [hx] at hcond
              simp at hcond
            · rfl
          have hsl2 : jsStartsWith hh "//" = false := by
            cases hx : jsStartsWith hh "//"
            · rfl
            · rw [hx] at hcond
              simp at hcond
          have habs := resolve_slash hsl hsl2 hru
          rw [fixAnchor_anchor_some, if_neg (by simp [habs])]
      next hcond =>
        have h2 := Option.some.inj h
        subst h2
        rw [fixAnchor_anchor_some, if_neg hcond]
  | styleTag c =>
    have h2 := Option.some.inj h
    subst h2
    rfl
  | link rel href =>
    have h2 := Option.some.inj h
    subst h2
    rfl
  | script src c =>
    have h2 := Option.some.inj h
    subst h2
    rfl
  | img si ss =>
    have h2 := Option.some.inj h
    subst h2
    rfl
  | noscript c =>
    have h2 := Option.some.inj h
    subst h2
    rfl
  | iframe si =>
    have h2 := Option.some.inj h
    subst h2
    rfl
  | meta nm c =>
    have h2 := Option.some.inj h
    subst h2
    rfl
  | other tag =>
    have h2 := Option.some.inj h
    subst h2
    rfl

theorem fixAnchor_shape {base : String} {m n : Node} (h : fixAnchor base m = some n) :
    n = m ∨ ((∃ a1 t1, m = Node.anchor a1 t1) ∧ ∃ a2 t2, n = Node.anchor a2 t2) := by
  cases m with
  | anchor oh tgt =>
    cases oh with
    | none => exact Or.inl (Option.some.inj h).symm
    | some hh =>
      rw [fixAnchor_anchor_some] at h
      split at h
      · rcases hru : resolveUrl hh base with _ | abs
        · rw [hru] at h
          simp at h
        · rw [hru] at h
          exact Or.inr ⟨⟨some hh, tgt, rfl⟩, some abs, some "_blank", (Option.some.inj h).symm⟩
      · exact Or.inl (Option.some.inj h).symm
  | styleTag c => exact Or.inl (Option.some.inj h).symm
  | link rel href => exact Or.inl (Option.some.inj h).symm
  | script src c => exact Or.inl (Option.some.inj h).symm
  | img si ss => exact Or.inl (Option.some.inj h).symm
  | noscript c => exact Or.inl (Option.some.inj h).symm
  | iframe si => exact Or.inl (Option.some.inj h).symm
  | meta nm c => exact Or.inl (Option.some.inj h).symm
  | other tag => exact Or.inl (Option.some.inj h).symm

theorem stripScripts_of_clean (base : String) (l : List Node)
    (h : ∀ n ∈ l, NodeClean base n) : stripScripts l = l := by
  apply List.filter_eq_self.mpr
  intro a ha
  have hc := (h a ha).1
  cases a with
  | script src c => simpa using hc
  | noscript c => exact hc.elim
  | styleTag c => rfl
  | link rel href => rfl
  | img si ss => rfl
  | iframe si => rfl
  | anchor oh tgt => rfl
  | meta nm c => rfl
  | other tag => rfl

theorem stripNoscript_of_clean (base : String) (l : List Node)
    (h : ∀ n ∈ l, NodeClean base n) : stripNoscript l = l := by
  apply List.filter_eq_self.mpr
  intro a ha
  have hcl := h a ha
  cases a with
  | noscript c => exact hcl.1.elim
  | script src c => rfl
  | styleTag c => rfl
  | link rel href => rfl
  | img si ss => rfl
  | iframe si => rfl
  | anchor oh tgt => rfl
  | meta nm c => rfl
  | other tag => rfl

theorem stripIframes_of_clean (base : String) (l : List Node)
    (h : ∀ n ∈ l, NodeClean base n) : stripTrackingIframes l = l := by
  apply List.filter_eq_self.mpr
  intro a ha
  have hc := (h a ha).2.1
  simp [hc]

theorem mapM_fixAnchor_of_clean (base : String) (l : List Node)
    (h : ∀ n ∈ l, NodeClean base n) : l.mapM (fixAnchor base) = some l := by
  induction l with
  | nil => rfl
  | cons a t ih =>
    rw [List.mapM_cons, (h a (List.mem_cons_self a t)).2.2,
      ih (fun n hn => h n (List.mem_cons_of_mem a hn))]
    rfl

theorem cleansePass_of_clean (base : String) (l : List Node)
    (h : ∀ n ∈ l, NodeClean base n) : cleansePass base l = some l := by
  unfold cleansePass
  rw [stripScripts_of_clean base l h]
  rw [stripNoscript_of_clean base l h]
  rw [stripIframes_of_clean base l h]
  exact mapM_fixAnchor_of_clean base l h

theorem cleansePass_output_clean {base : String} {l l2 : List Node}
    (h : cleansePass base l = some l2) : ∀ n ∈ l2, NodeClean base n := by
  intro n hn
  unfold cleansePass at h
  obtain ⟨m, hm, hfm⟩ := mapM_option_mem h n hn
  have hif := mem_stripIframes_prop hm
  have hns := mem_stripNoscript_prop hif.1
  have hsc := mem_stripScripts_prop hns.1
  refine ⟨?_, ?_, fixAnchor_idem hfm⟩
  · rcases fixAnchor_shape hfm with heq | ⟨_, ⟨a2, t2, hn2⟩⟩
    · subst heq
      cases n with
      | script src c => exact hsc.2 src c rfl
      | noscript c => exact (hns.2 c rfl).elim
      | styleTag c => trivial
      | link rel href => trivial
      | img si ss => trivial
      | iframe si => trivial
      | anchor oh tgt => trivial
      | meta nm c => trivial
      | other tag => trivial
    · subst hn2
      trivial
  · rcases fixAnchor_shape hfm with heq | ⟨_, ⟨a2, t2, hn2⟩⟩
    · rw [heq]
      exact hif.2
    · rw [hn2]
      rfl

set_option maxRecDepth 40000 in
theorem enh_scroll : jsIncludes enhancementStyles "scroll-behavior" = true := by decide

theorem viewportStep_has (info : PageInfo) (d : Doc) :
    (allNodes (viewportStep info d)).any isViewportMeta = true := by
  unfold viewportStep
  split
  next h => exact h
  next h => simp [allNodes, isViewportMeta]

theorem descriptionStep_has (info : PageInfo) (d : Doc) (hdesc : info.description ≠ "") :
    (allNodes (descriptionStep info d)).any isDescriptionMeta = true := by
  unfold descriptionStep
  split
  next h => simp [allNodes, List.any_append, isDescriptionMeta]
  next h =>
    by_cases hany : (allNodes d).any isDescriptionMeta = true
    · exact hany
    · have hany2 : (allNodes d).any isDescriptionMeta = false := by simpa using hany
      exact absurd (by simp [hany2, hdesc]) h

theorem scrollStyleStep_has (d : Doc) :
    (allNodes (scrollStyleStep d)).any isScrollStyle = true := by
  unfold scrollStyleStep
  split
  next h => exact h
  next h => simp [allNodes, List.any_append, isScrollStyle, enh_scroll]

theorem descriptionStep_any_mono (info : PageInfo) (d : Doc) (p : Node → Bool)
    (h : (allNodes d).any p = true) : (allNodes (descriptionStep info d)).any p = true := by
  unfold descriptionStep
  split
  · simp only [allNodes, List.any_append] at h ⊢
    rcases Bool.or_eq_true_iff.mp h with h1 | h1 <;> simp [h1]
  · exact h

theorem scrollStyleStep_any_mono (d : Doc) (p : Node → Bool)
    (h : (allNodes d).any p = true) : (allNodes (scrollStyleStep d)).any p = true := by
  unfold scrollStyleStep
  split
  · exact h
  · simp only [allNodes, List.any_append] at h ⊢
    rcases Bool.or_eq_true_iff.mp h with h1 | h1 <;> simp [h1]

theorem viewportStep_id {info : PageInfo} {d : Doc}
    (h : (allNodes d).any isViewportMeta = true) : viewportStep info d = d := by
  unfold viewportStep
  rw [if_pos h]

theorem descriptionStep_id {info : PageInfo} {d : Doc}
    (h : (allNodes d).any isDescriptionMeta = true ∨ info.description = "") :
    descriptionStep info d = d := by
  unfold descriptionStep
  rcases h with h | h
  · rw [if_neg (by simp [h])]
  · rw [if_neg (by simp [h])]

theorem scrollStyleStep_id {d : Doc} (h : (allNodes d).any isScrollStyle = true) :
    scrollStyleStep d = d := by
  unfold scrollStyleStep
  rw [if_pos h]

theorem metaStylePass_idem (info : PageInfo) (dd : Doc) :
    metaStylePass info (metaStylePass info dd) = metaStylePass info dd := by
  have hv : (allNodes (metaStylePass info dd)).any isViewportMeta = true := by
    unfold metaStylePass
    exact scrollStyleStep_any_mono _ _
      (descriptionStep_any_mono info _ _ (viewportStep_has info dd))
  have hdsc : (allNodes (metaStylePass info dd)).any isDescriptionMeta = true ∨
      info.description = "" := by
    by_cases hd : info.description = ""
    · exact Or.inr hd
    · refine Or.inl ?_
      unfold metaStylePass
      exact scrollStyleStep_any_mono _ _ (descriptionStep_has info _ hd)
  have hsc : (allNodes (metaStylePass info dd)).any isScrollStyle = true := by
    unfold metaStylePass
    exact scrollStyleStep_has _
  show scrollStyleStep (descriptionStep info (viewportStep info (metaStylePass info dd))) =
    metaStylePass info dd
  rw [viewportStep_id hv, descriptionStep_id hdsc, scrollStyleStep_id hsc]

theorem nodeClean_meta (base nm c : String) : NodeClean base (Node.meta nm c) :=
  ⟨trivial, rfl, rfl⟩

theorem nodeClean_style (base c : String) : NodeClean base (Node.styleTag c) :=
  ⟨trivial, rfl, rfl⟩

theorem metaStylePass_clean {base : String} {info : PageInfo} {dd : Doc}
    (h : ∀ n ∈ allNodes dd, NodeClean base n) :
    ∀ n ∈ allNodes (metaStylePass info dd), NodeClean base n := by
  intro n hn
  rcases metaStyle_mem hn with h1 | h1 | h1 | h1
  · exact h n h1
  · subst h1
    exact nodeClean_meta base "viewport" info.viewport
  · subst h1
    exact nodeClean_meta base "description" info.description
  · subst h1
    exact nodeClean_style base enhancementStyles

/-- C7: the claim says rewriting a document that already contains only local
asset paths returns it unchanged.  It does not: this document references only
the local path `a.png`, yet `generateHTMLOutput` removes its noscript node
and appends the enhancement style block, so the output differs from the
input. -/
theorem C7_counterexample :
    generateHTMLOutput ⟨"t", "", "", "w", "", "http://e.com/"⟩
        ⟨[Node.meta "viewport" "w"], [Node.noscript "x", Node.img (some "a.png") none]⟩ ≠
      some ⟨[Node.meta "viewport" "w"], [Node.noscript "x", Node.img (some "a.png") none]⟩ := by
  decide

/-- C7 (amended): the rewriting step is idempotent in the composition sense:
a second application of `generateHTMLOutput` to any of its own outputs
returns that output unchanged (the cleanup passes find nothing left to
remove, every anchor is already absolute, and the meta/style insertions
detect their earlier insertions); but applying it to an arbitrary document
that merely contains only local asset paths may still change it. -/
theorem C7_amended (info : PageInfo) (d d2 : Doc)
    (h : generateHTMLOutput info d = some d2) : generateHTMLOutput info d2 = some d2 := by
  unfold generateHTMLOutput at h
  rcases hh : cleansePass info.baseUrl d.head with _ | h2
  · rw [hh] at h
    simp at h
  · rw [hh] at h
    rcases hb : cleansePass info.baseUrl d.body with _ | b2
    · rw [hb] at h
      simp at h
    · rw [hb] at h
      have hd2 := Option.some.inj h
      subst hd2
      have hcl : ∀ n ∈ allNodes (metaStylePass info ⟨h2, b2⟩), NodeClean info.baseUrl n := by
        apply metaStylePass_clean
        intro n hn
        rcases List.mem_append.mp hn with h1 | h1
        · exact cleansePass_output_clean hh n h1
        · exact cleansePass_output_clean hb n h1
      have hch : cleansePass info.baseUrl (metaStylePass info ⟨h2, b2⟩).head =
          some (metaStylePass info ⟨h2, b2⟩).head := by
        apply cleansePass_of_clean
        intro n hn
        exact hcl n (List.mem_append_left _ hn)
      have hcb : cleansePass info.baseUrl (metaStylePass info ⟨h2, b2⟩).body =
          some (metaStylePass info ⟨h2, b2⟩).body := by
        apply cleansePass_of_clean
        intro n hn
        exact hcl n (List.mem_append_right _ hn)
      unfold generateHTMLOutput
      rw [hch, hcb]
      show some (metaStylePass info (metaStylePass info ⟨h2, b2⟩)) = _
      rw [metaStylePass_idem]

set_option maxRecDepth 40000 in
/-- C7 witness: the amended statement applied to a concrete run — the output
of `generateHTMLOutput` on a small document is a fixed point. -/
theorem C7_witness :
    generateHTMLOutput ⟨"t", "", "", "w", "", "http://e.com/"⟩
        ⟨[Node.meta "viewport" "w", Node.styleTag enhancementStyles],
         [Node.img (some "a.png") none]⟩ =
      some ⟨[Node.meta "viewport" "w", Node.styleTag enhancementStyles],
            [Node.img (some "a.png") none]⟩ :=
  C7_amended ⟨"t", "", "", "w", "", "http://e.com/"⟩
    ⟨[Node.meta "viewport" "w"], [Node.noscript "x", Node.img (some "a.png") none]⟩
    ⟨[Node.meta "viewport" "w", Node.styleTag enhancementStyles],
     [Node.img (some "a.png") none]⟩
    (by decide)


end Cloner
